import Mathlib

/-!
Verification of the measure-validation engine of the score-reader repository,
a shallow embedding of src/tools/measure_validator.py.

Modelling conventions:
* Python `Fraction` values are Lean rationals (`ℚ`); `float(...)` conversion
  happens only at the reporting boundary in the original, so report fields keep
  their exact rational values here.
* Python exceptions are modelled with `Except PyErr`: `.ok` is a normal return,
  `.error` is an uncaught exception escaping the function.
* Python dicts of fixed shape become structures; optional keys become `Option`.
* Python strings are modelled as `List Char` internally (with `String` at the
  data-model boundary), with Python's `strip`/`lower`/`split`/`int` re-built
  below so that every definition evaluates by kernel reduction. Python strips
  a few exotic unicode whitespace characters and lowers non-ASCII letters;
  no input under consideration uses those.
-/

set_option maxRecDepth 10000
set_option linter.unusedVariables false

namespace MeasureValidator

/-- Python exception kinds that the validator code can raise. -/
inductive PyErr where
  | valueError (msg : String)
  | zeroDivisionError
deriving Repr, DecidableEq

instance {ε α : Type} [DecidableEq ε] [DecidableEq α] : DecidableEq (Except ε α) := fun
  | .ok a, .ok b =>
    if h : a = b then .isTrue (by rw [h]) else .isFalse (by intro hc; cases hc; exact h rfl)
  | .ok _, .error _ => .isFalse (by intro hc; cases hc)
  | .error _, .ok _ => .isFalse (by intro hc; cases hc)
  | .error e, .error f =>
    if h : e = f then .isTrue (by rw [h]) else .isFalse (by intro hc; cases hc; exact h rfl)

/-- `true` on `.ok`, `false` on `.error`. -/
def isExcOk {ε α : Type} : Except ε α → Bool
  | .ok _ => true
  | .error _ => false

/-! ### Python string primitives over `List Char` -/

/-- Python `str.strip()`: drop leading and trailing whitespace. -/
def pyStrip (cs : List Char) : List Char :=
  ((cs.dropWhile Char.isWhitespace).reverse.dropWhile Char.isWhitespace).reverse

/-- Python `str.lower()` (ASCII letters; no other letters occur here). -/
def pyLower (cs : List Char) : List Char :=
  cs.map Char.toLower

/-- Splitting at every character satisfying `p`, keeping empty pieces,
as Python `str.split(sep)` does for a one-character separator. -/
def pySplitIf (p : Char → Bool) : List Char → List (List Char)
  | [] => [[]]
  | c :: cs =>
    if p c then [] :: pySplitIf p cs
    else
      match pySplitIf p cs with
      | r :: rs => (c :: r) :: rs
      | [] => [[c]]

/-- Python `str.split(sep)` with a one-character separator. -/
def pySplit (sep : Char) (cs : List Char) : List (List Char) :=
  pySplitIf (· == sep) cs

/-- Python `str.split()` with no separator: split on whitespace, drop empties. -/
def pySplitWs (cs : List Char) : List (List Char) :=
  (pySplitIf Char.isWhitespace cs).filter (fun w => !w.isEmpty)

/-- Value of a nonempty all-digit character list. -/
def pyNat? (cs : List Char) : Option Nat :=
  if cs ≠ [] ∧ cs.all Char.isDigit then
    some (cs.foldl (fun n c => n * 10 + (c.toNat - 48)) 0)
  else none

/-- Python `int(s)`: optional surrounding whitespace, optional sign, digits;
`none` models the `ValueError` raise. (Python additionally accepts underscore
digit grouping; not modelled, no input under consideration uses it.) -/
def pyInt? (cs : List Char) : Option Int :=
  match pyStrip cs with
  | '-' :: ds => (pyNat? ds).map (fun n => -(n : Int))
  | '+' :: ds => (pyNat? ds).map (fun n => (n : Int))
  | ds => (pyNat? ds).map (fun n => (n : Int))

/-! ### Exact fractions

Python's `fractions.Fraction` with the operations the validator uses.
`Fraction` additionally reduces to lowest terms; every observation the code
makes of these values (`+`, `*`, `-`, `abs`, `<=`, `float(...)`) is
representation-independent, so reduction is omitted here (built-in `Rat`
arithmetic does not reduce in the kernel) and values are read off through
`Frac.toRat`. The denominator is kept positive, as `Fraction` does. -/

structure Frac where
  num : Int
  den : Int
deriving Repr, DecidableEq

/-- `Fraction(n, d)` after its sign normalization (reduction omitted). -/
def Frac.mkSigned (n d : Int) : Frac :=
  if d < 0 then ⟨-n, -d⟩ else ⟨n, d⟩

/-- `Fraction(n, d)`: raises `ZeroDivisionError` on a zero denominator. -/
def pyFraction (n d : Int) : Except PyErr Frac :=
  if d = 0 then .error .zeroDivisionError else .ok (Frac.mkSigned n d)

def Frac.add (a b : Frac) : Frac := ⟨a.num * b.den + b.num * a.den, a.den * b.den⟩

def Frac.sub (a b : Frac) : Frac := ⟨a.num * b.den - b.num * a.den, a.den * b.den⟩

def Frac.mul (a b : Frac) : Frac := ⟨a.num * b.num, a.den * b.den⟩

/-- `n * f` with an integer `n` (Python coerces the int). -/
def Frac.intMul (n : Int) (f : Frac) : Frac := ⟨n * f.num, f.den⟩

def Frac.abs (a : Frac) : Frac := ⟨|a.num|, a.den⟩

/-- `a <= b` by cross multiplication (denominators are kept positive). -/
def Frac.le (a b : Frac) : Prop := a.num * b.den ≤ b.num * a.den

instance (a b : Frac) : Decidable (a.le b) := by unfold Frac.le; infer_instance

/-- `a / b` (only used for the report's mean errors, where `b ≠ 0`). -/
def Frac.div (a b : Frac) : Frac := Frac.mkSigned (a.num * b.den) (a.den * b.num)

/-- The exact rational value of a fraction. -/
def Frac.toRat (a : Frac) : ℚ := (a.num : ℚ) / (a.den : ℚ)

theorem Frac.toRat_mk (n d : Int) : Frac.toRat ⟨n, d⟩ = (n : ℚ) / (d : ℚ) := rfl

theorem Frac.toRat_add (a b : Frac) (ha : 0 < a.den) (hb : 0 < b.den) :
    (a.add b).toRat = a.toRat + b.toRat := by
  have ha' : ((a.den : ℚ)) ≠ 0 := by exact_mod_cast ha.ne'
  have hb' : ((b.den : ℚ)) ≠ 0 := by exact_mod_cast hb.ne'
  simp only [Frac.add, Frac.toRat]
  push_cast
  field_simp

theorem Frac.toRat_sub (a b : Frac) (ha : 0 < a.den) (hb : 0 < b.den) :
    (a.sub b).toRat = a.toRat - b.toRat := by
  have ha' : ((a.den : ℚ)) ≠ 0 := by exact_mod_cast ha.ne'
  have hb' : ((b.den : ℚ)) ≠ 0 := by exact_mod_cast hb.ne'
  simp only [Frac.sub, Frac.toRat]
  push_cast
  field_simp
  ring

theorem Frac.toRat_mul (a b : Frac) :
    (a.mul b).toRat = a.toRat * b.toRat := by
  simp only [Frac.mul, Frac.toRat]
  push_cast
  by_cases ha : (a.den : ℚ) = 0
  · simp [ha]
  · by_cases hb : (b.den : ℚ) = 0
    · simp [hb]
    · field_simp

theorem Frac.toRat_intMul (n : Int) (f : Frac) :
    (Frac.intMul n f).toRat = (n : ℚ) * f.toRat := by
  simp only [Frac.intMul, Frac.toRat]
  push_cast
  rw [mul_div_assoc]

theorem Frac.toRat_abs (a : Frac) (ha : 0 < a.den) :
    (Frac.abs a).toRat = |a.toRat| := by
  have ha' : (0 : ℚ) < (a.den : ℚ) := by exact_mod_cast ha
  simp only [Frac.abs, Frac.toRat]
  rw [abs_div, abs_of_pos ha']
  push_cast
  rfl

theorem Frac.le_iff (a b : Frac) (ha : 0 < a.den) (hb : 0 < b.den) :
    a.le b ↔ a.toRat ≤ b.toRat := by
  have ha' : (0 : ℚ) < (a.den : ℚ) := by exact_mod_cast ha
  have hb' : (0 : ℚ) < (b.den : ℚ) := by exact_mod_cast hb
  simp only [Frac.le, Frac.toRat]
  rw [div_le_div_iff₀ ha' hb']
  constructor
  · intro h
    exact_mod_cast h
  · intro h
    exact_mod_cast h

theorem Frac.add_den_pos {a b : Frac} (ha : 0 < a.den) (hb : 0 < b.den) :
    0 < (a.add b).den := mul_pos ha hb

theorem Frac.sub_den_pos {a b : Frac} (ha : 0 < a.den) (hb : 0 < b.den) :
    0 < (a.sub b).den := mul_pos ha hb

theorem Frac.mul_den_pos {a b : Frac} (ha : 0 < a.den) (hb : 0 < b.den) :
    0 < (a.mul b).den := mul_pos ha hb

theorem Frac.intMul_den_pos {n : Int} {f : Frac} (hf : 0 < f.den) :
    0 < (Frac.intMul n f).den := hf

theorem Frac.abs_den_pos {a : Frac} (ha : 0 < a.den) :
    0 < (Frac.abs a).den := ha

theorem Frac.mkSigned_den_pos {n d : Int} (hd : d ≠ 0) :
    0 < (Frac.mkSigned n d).den := by
  unfold Frac.mkSigned
  rcases lt_trichotomy d 0 with h | h | h
  · simp [h]
  · exact absurd h hd
  · simp [not_lt.mpr h.le]
    exact h

/-! ### The duration table and parser -/

/-- The fixed duration table `DURATION_VALUES` of measure_validator.py,
mapping token names to exact fractional beat values (quarter note = 1). -/
def DURATION_VALUES : List (List Char × Frac) :=
  [("whole".toList, ⟨4, 1⟩), ("half".toList, ⟨2, 1⟩), ("quarter".toList, ⟨1, 1⟩),
   ("eighth".toList, ⟨1, 2⟩), ("sixteenth".toList, ⟨1, 4⟩),
   ("thirty_second".toList, ⟨1, 8⟩), ("rest".toList, ⟨0, 1⟩),
   ("dotted whole".toList, ⟨6, 1⟩), ("dotted half".toList, ⟨3, 1⟩),
   ("dotted quarter".toList, ⟨3, 2⟩), ("dotted eighth".toList, ⟨3, 4⟩),
   ("dotted sixteenth".toList, ⟨3, 8⟩),
   ("eigths".toList, ⟨1, 2⟩), ("eigth".toList, ⟨1, 2⟩)]

/-- Python `DURATION_VALUES.get(key, Fraction(0, 1))`. -/
def durationLookup (key : List Char) : Frac := (DURATION_VALUES.lookup key).getD ⟨0, 1⟩

/-- The spelled-out number words recognized by `parse_duration` (lines 78-81). -/
def number_words : List (List Char × Nat) :=
  [("one".toList, 1), ("two".toList, 2), ("three".toList, 3), ("four".toList, 4),
   ("five".toList, 5), ("six".toList, 6), ("seven".toList, 7),
   ("eight".toList, 8), ("nine".toList, 9), ("ten".toList, 10)]

/-- The untyped duration value arriving from JSON: Python `None`, a string, a
list, or a number (which the code stringifies before lookup). A list holds
atoms: the original recursion on `duration_input[-1]` would also accept
nested lists, but the data contract has ordered sequences of tokens only,
so list elements are atoms here and the recursion is flattened away. -/
inductive DurationAtom where
  | pyNone
  | str (s : String)
  | int (n : Int)
deriving Repr

inductive DurationInput where
  | pyNone
  | str (s : String)
  | list (xs : List DurationAtom)
  | int (n : Int)
deriving Repr

/-- An atom re-read as a standalone parser input. -/
def DurationAtom.toInput : DurationAtom → DurationInput
  | .pyNone => .pyNone
  | .str s => .str s
  | .int n => .int n

/-- The comma-free tail of `parse_duration` (lines 70-97): the `<n> * <token>`
form, the spelled-out count form, and the plain table lookup. On every call
path `duration_str` is already stripped, lowered, nonempty and comma-free. -/
def parse_nocomma (duration_str : List Char) : Except PyErr Frac :=
  if duration_str.contains '*' then
    -- `multiplier = int(parts[0].strip())` raises ValueError on a non-integer
    let parts := pySplit '*' duration_str
    match pyInt? (pyStrip (parts.getD 0 [])) with
    | none => .error (.valueError "invalid literal for int")
    | some multiplier =>
      let duration_type := pyStrip (parts.getD 1 [])
      .ok (Frac.intMul multiplier (durationLookup duration_type))
  else
    match pySplitWs duration_str with
    | w0 :: w1 :: _ =>
      match number_words.lookup w0 with
      | some multiplier =>
        let duration_type0 := pyLower w1
        -- normalize common typos (lines 89-92)
        let duration_type :=
          if duration_type0 = "eigths".toList ∨ duration_type0 = "eigth".toList then
            "eighth".toList
          else if duration_type0 = "sixteenths".toList then "sixteenth".toList
          else duration_type0
        .ok (Frac.intMul multiplier (durationLookup duration_type))
      | none => .ok (durationLookup duration_str)
    | _ => .ok (durationLookup duration_str)

/-- One summand of the comma branch (line 68): the recursive call
`parse_duration(part.strip())` on a comma-free part, which reduces to the
falsy/emptiness checks of lines 53-63 plus the comma-free tail, added onto
the running sum. -/
def parse_chars_step (total : Frac) (part : List Char) : Except PyErr Frac :=
  let stripped := pyStrip part
  if stripped = [] then pure total
  else
    let sub := pyLower (pyStrip stripped)
    if sub = [] then pure total
    else (parse_nocomma sub).map (fun d => total.add d)

/-- `parse_duration` on an actual string argument (lines 52-97). The comma
branch of the original recursively calls `parse_duration` on each
comma-separated part; such a part never contains a comma, so that inner call
reduces to `parse_chars_step`. -/
def parse_chars (duration_input : List Char) : Except PyErr Frac :=
  if duration_input = [] then .ok ⟨0, 1⟩
  else
    let duration_str := pyLower (pyStrip duration_input)
    if duration_str = [] then .ok ⟨0, 1⟩
    else if duration_str.contains ',' then
      (pySplit ',' duration_str).foldlM parse_chars_step (⟨0, 1⟩ : Frac)
    else parse_nocomma duration_str

/-- `parse_duration` on a non-list argument (lines 52-97): falsy values give
zero, strings are parsed, other values are stringified first (line 58). -/
def parse_atom : DurationAtom → Except PyErr Frac
  | .pyNone => .ok ⟨0, 1⟩
  | .str s => parse_chars s.toList
  | .int n => if n = 0 then .ok ⟨0, 1⟩ else parse_chars (toString n).toList

/-- `parse_duration` (lines 32-97): a list takes `duration_input[-1]`
(lines 44-50), everything else is handled by the non-list branch. -/
def parse_duration : DurationInput → Except PyErr Frac
  | .list [] => .ok ⟨0, 1⟩
  | .list (x :: xs) => parse_atom ((x :: xs).getLast (List.cons_ne_nil x xs))
  | .pyNone => parse_atom .pyNone
  | .int n => parse_atom (.int n)
  | .str s => parse_atom (.str s)

theorem parse_atom_toInput (a : DurationAtom) :
    parse_duration a.toInput = parse_atom a := by
  cases a <;> rfl

example : parse_duration (.str "quarter") = .ok ⟨1, 1⟩ := by decide
example : parse_duration (.str "3 * eighth") = .ok ⟨3, 2⟩ := by decide
example : parse_duration (.str "seven sixteenth") = .ok ⟨7, 4⟩ := by decide
example : parse_duration (.str "half, sixteenth") = .ok ⟨9, 4⟩ := by decide
example : parse_duration (.list [.str "half", .str "sixteenth"]) = .ok ⟨1, 4⟩ := by decide
example : parse_duration (.str "a * b") = .error (.valueError "invalid literal for int") := by
  decide
example : parse_duration (.str "QUARTER") = .ok ⟨1, 1⟩ := by decide
example : parse_duration (.str "thirty-second") = .ok ⟨0, 1⟩ := by decide
example : parse_duration (.int 7) = .ok ⟨0, 1⟩ := by decide

/-! ### Data model: events, measures, scores -/

/-- A time-signature dict `{"numerator": n, "denominator": d}`. (A dict
missing one of the two keys would raise `KeyError`; not modelled.) -/
structure TimeSigDict where
  numerator : Int
  denominator : Int
deriving Repr, DecidableEq

/-- The optional per-measure `"time_signature"` field: absent, an `"N/D"`
string, a structured dict, or a value of any other type (which the code
treats as carrying nothing). -/
inductive TSField where
  | none
  | str (s : String)
  | ts (numerator denominator : Int)
  | other
deriving Repr

/-- One event of a voice: simultaneous pitches plus one duration expression.
`duration = Option.none` models a dict without the `"duration"` key
(`event.get("duration", "quarter")` then supplies the default). -/
structure Event where
  notes : List String
  duration : Option DurationInput
deriving Repr

/-- A measure dict: optional id, optional time-signature field, two voices. -/
structure Measure where
  id : Option String
  time_signature : TSField
  right_hand : List Event
  left_hand : List Event
deriving Repr

/-- The score-level `"time_signature"` field: absent, an `"N/D"` string, or a
structured dict. (A value of any other type would flow through untyped and
raise `TypeError` when later indexed; not modelled.) -/
inductive GTSField where
  | none
  | str (s : String)
  | ts (numerator denominator : Int)
deriving Repr

/-- The whole extracted score handed to `validate_all_measures`. -/
structure MusicData where
  time_signature : GTSField
  measures : List Measure
deriving Repr

/-- `f"{numerator}/{denominator}"`. -/
def ndString (ts : TimeSigDict) : String :=
  toString ts.numerator ++ "/" ++ toString ts.denominator

/-- `calculate_measure_duration_events` (lines 100-133): the events of one
voice are summed sequentially; `notes` and both extra parameters are unused
by the body. -/
def calculate_measure_duration_events (events : List Event)
    (time_signature : TimeSigDict) (is_left_hand : Bool := false) :
    Except PyErr Frac :=
  if events.isEmpty then .ok ⟨0, 1⟩
  else
    events.foldlM
      (fun total event => do
        let duration ← parse_duration (event.duration.getD (.str "quarter"))
        pure (total.add duration))
      (⟨0, 1⟩ : Frac)

/-- The per-measure validation result dict (lines 199-210). Durations and
errors are `float(...)`-rendered in Python; the exact values are kept here
(conversion to floating point is the reporting boundary). -/
structure MeasureResult where
  measure_id : String
  time_signature : String
  expected_duration : Frac
  right_hand_duration : Frac
  left_hand_duration : Frac
  right_hand_valid : Bool
  left_hand_valid : Bool
  both_valid : Bool
  right_hand_error : Frac
  left_hand_error : Frac
deriving Repr, DecidableEq

/-- Outcome of the repeated `parts = s.split('/'); if len(parts) == 2:
{int(parts[0]), int(parts[1])}` snippet: the string does not have exactly two
parts (`skip`, the `if` branch is not taken), `int(...)` raises (`err`), or a
signature dict is built (`ok`). -/
inductive SigParse where
  | skip
  | err
  | ok (ts : TimeSigDict)
deriving Repr, DecidableEq

def parseSigStr (s : String) : SigParse :=
  let parts := pySplit '/' s.toList
  if parts.length = 2 then
    match pyInt? (parts.getD 0 []) with
    | Option.none => .err
    | some a =>
      match pyInt? (parts.getD 1 []) with
      | Option.none => .err
      | some b => .ok ⟨a, b⟩
  else .skip

/-- Resolution of the measure-level time-signature field against the passed
`time_signature` argument (lines 149-167 of `validate_measure`). -/
def resolve_measure_signature (field : TSField)
    (time_signature : Option TimeSigDict) : Except PyErr TimeSigDict :=
  match field with
  | .str s =>
    match parseSigStr s with
    | .ok t => .ok t
    | .err => .error (.valueError "invalid literal for int")
    -- `time_signature = time_signature or {"numerator": 4, "denominator": 4}`
    | .skip => .ok (time_signature.getD ⟨4, 4⟩)
  | .ts n d => .ok ⟨n, d⟩
  | .none => .ok (time_signature.getD ⟨4, 4⟩)
  | .other => .ok (time_signature.getD ⟨4, 4⟩)

/-- `validate_measure` (lines 136-212). -/
def validate_measure (measure : Measure)
    (time_signature : Option TimeSigDict := Option.none) :
    Except PyErr MeasureResult := do
  let ts ← resolve_measure_signature measure.time_signature time_signature
  -- `Fraction(numerator, denominator) * 4` (ZeroDivisionError on 0)
  let base ← pyFraction ts.numerator ts.denominator
  let expected_duration := base.mul ⟨4, 1⟩
  let right_hand_duration ←
    calculate_measure_duration_events measure.right_hand ts false
  let left_hand_duration ←
    calculate_measure_duration_events measure.left_hand ts true
  let tolerance : Frac := ⟨1, 1000⟩
  let right_valid := decide (((right_hand_duration.sub expected_duration).abs).le tolerance)
  let left_valid := decide (((left_hand_duration.sub expected_duration).abs).le tolerance)
  pure {
    measure_id := measure.id.getD "?"
    time_signature := ndString ts
    expected_duration := expected_duration
    right_hand_duration := right_hand_duration
    left_hand_duration := left_hand_duration
    right_hand_valid := right_valid
    left_hand_valid := left_valid
    both_valid := right_valid && left_valid
    right_hand_error := (right_hand_duration.sub expected_duration).abs
    left_hand_error := (left_hand_duration.sub expected_duration).abs }

/-- Resolution of the score-level time-signature field (lines 226-235):
a malformed string (not two parts) silently becomes 4/4, a two-part string
with a non-integer part raises ValueError. -/
def resolve_global_signature (field : GTSField) : Except PyErr TimeSigDict :=
  match field with
  | .none => .ok ⟨4, 4⟩
  | .ts n d => .ok ⟨n, d⟩
  | .str s =>
    match parseSigStr s with
    | .ok t => .ok t
    | .err => .error (.valueError "invalid literal for int")
    | .skip => .ok ⟨4, 4⟩

/-- The per-measure update of `current_time_signature` inside the loop of
`validate_all_measures` (lines 253-263): a well-formed string or a dict
replaces the current signature; anything else (including a string that does
not split into two parts) leaves it unchanged. -/
def update_current_signature (current : TimeSigDict) (m : Measure) :
    Except PyErr TimeSigDict :=
  match m.time_signature with
  | .str s =>
    match parseSigStr s with
    | .ok t => .ok t
    | .err => .error (.valueError "invalid literal for int")
    | .skip => .ok current
  | .ts n d => .ok ⟨n, d⟩
  | .none => .ok current
  | .other => .ok current

/-- The loop of `validate_all_measures` (lines 253-268), threading the
current time signature and collecting the per-measure results. -/
def validate_measures_loop (current : TimeSigDict) :
    List Measure → Except PyErr (List MeasureResult)
  | [] => .ok []
  | m :: rest => do
    let current' ← update_current_signature current m
    let r ← validate_measure m (some current')
    let rs ← validate_measures_loop current' rest
    pure (r :: rs)

/-- The aggregate report dict (lines 274-288), summary flattened. Mean
errors are float divisions in Python; kept exact here. -/
structure AggregateReport where
  time_signature : String
  total_measures : Nat
  valid_measures : Nat
  invalid_measures : Nat
  all_valid : Bool
  measure_results : List MeasureResult
  right_hand_valid_count : Nat
  left_hand_valid_count : Nat
  average_right_hand_error : Frac
  average_left_hand_error : Frac
deriving Repr, DecidableEq

/-- What `validate_all_measures` returns normally: either the structured
`{"status": "error", ...}` dict or the `{"status": "success", ...}` report. -/
inductive AllResult where
  | error (error_message : String)
  | success (report : AggregateReport)
deriving Repr, DecidableEq

/-- Sum of a list of fractions, starting from `Fraction(0, 1)`. -/
def fracSum (l : List Frac) : Frac := l.foldl Frac.add ⟨0, 1⟩

/-- `validate_all_measures` (lines 215-288). The loop-carried `all_valid`
flag equals `results.all both_valid`; the statistics are computed as in the
source. -/
def validate_all_measures (music_data : MusicData) : Except PyErr AllResult := do
  let time_signature ← resolve_global_signature music_data.time_signature
  let measures := music_data.measures
  if measures.isEmpty then
    pure (.error "No measures found in music data")
  else do
    let results ← validate_measures_loop time_signature measures
    let valid_count := (results.filter (fun r => r.both_valid)).length
    let invalid_count := results.length - valid_count
    pure (.success {
      time_signature := ndString time_signature
      total_measures := measures.length
      valid_measures := valid_count
      invalid_measures := invalid_count
      all_valid := results.all (fun r => r.both_valid)
      measure_results := results
      right_hand_valid_count := (results.filter (fun r => r.right_hand_valid)).length
      left_hand_valid_count := (results.filter (fun r => r.left_hand_valid)).length
      average_right_hand_error :=
        if results.length = 0 then ⟨0, 1⟩
        else (fracSum (results.map (fun r => r.right_hand_error))).div ⟨(results.length : Int), 1⟩
      average_left_hand_error :=
        if results.length = 0 then ⟨0, 1⟩
        else (fracSum (results.map (fun r => r.left_hand_error))).div ⟨(results.length : Int), 1⟩ })

example :
    validate_measure
      { id := some "m1", time_signature := .none,
        right_hand := [⟨["C4"], some (.str "quarter")⟩, ⟨["D4"], some (.str "quarter")⟩,
                       ⟨["E4"], some (.str "quarter")⟩, ⟨["F4"], some (.str "quarter")⟩],
        left_hand := [⟨["C2"], some (.str "whole")⟩] }
      (some ⟨4, 4⟩) =
    .ok { measure_id := "m1", time_signature := "4/4", expected_duration := ⟨16, 4⟩,
          right_hand_duration := ⟨4, 1⟩, left_hand_duration := ⟨4, 1⟩,
          right_hand_valid := true, left_hand_valid := true, both_valid := true,
          right_hand_error := ⟨0, 4⟩, left_hand_error := ⟨0, 4⟩ } := by
  decide

/-! ### Claim-side signature resolution and well-formedness -/

/-- The explicit time signature a measure field carries, if any: a structured
pair, or an `"N/D"` string splitting into exactly two integers (the notion of
"carries an explicit time signature" used by the specification). -/
def specExplicitSig? : TSField → Option TimeSigDict
  | .ts n d => some ⟨n, d⟩
  | .str s =>
    match parseSigStr s with
    | .ok t => some t
    | _ => Option.none
  | _ => Option.none

/-- Spec-side resolver: fold the explicit signatures of a measure prefix over
a starting current signature (each explicit signature is carried forward). -/
def specCurrentSig (start : TimeSigDict) (ms : List Measure) : TimeSigDict :=
  ms.foldl (fun cur m => (specExplicitSig? m.time_signature).getD cur) start

/-- Spec-side global default: the score's global signature if given
(a malformed string gives none), else 4/4. -/
def specGlobalDefault : GTSField → TimeSigDict
  | .none => ⟨4, 4⟩
  | .ts n d => ⟨n, d⟩
  | .str s => (specExplicitSig? (.str s)).getD ⟨4, 4⟩

/-- Spec-side effective signature of measure `i`: the nearest explicit
signature at or before index `i`, else the global default, else 4/4. -/
def specEffectiveSig (md : MusicData) (i : Nat) : TimeSigDict :=
  specCurrentSig (specGlobalDefault md.time_signature) (md.measures.take (i + 1))

/-- A measure-level signature field the code can process without raising:
not a two-part string with a non-integer part (ValueError), and any explicit
signature has a nonzero denominator (ZeroDivisionError). -/
def sigFieldWf : TSField → Bool
  | .str s =>
    match parseSigStr s with
    | .skip => true
    | .err => false
    | .ok t => t.denominator != 0
  | .ts _ d => d != 0
  | _ => true

/-- Both voices of the measure have duration expressions that parse without
raising. (The two extra arguments of `calculate_measure_duration_events` are
unused by its body, so any values can be supplied here.) -/
def durationsWf (m : Measure) : Bool :=
  isExcOk (calculate_measure_duration_events m.right_hand ⟨4, 4⟩ false) &&
  isExcOk (calculate_measure_duration_events m.left_hand ⟨4, 4⟩ true)

def measureWf (m : Measure) : Bool :=
  sigFieldWf m.time_signature && durationsWf m

/-- A score-level signature field the code can process without raising. -/
def globalWf : GTSField → Bool
  | .str s =>
    match parseSigStr s with
    | .skip => true
    | .err => false
    | .ok t => t.denominator != 0
  | .ts _ d => d != 0
  | .none => true

/-- Data-model conformance of a whole score. -/
def scoreWf (md : MusicData) : Bool :=
  globalWf md.time_signature && md.measures.all measureWf

/-! ### Supporting lemmas -/

/-- The two extra parameters of `calculate_measure_duration_events` are not
used by its body. -/
theorem calculate_indep (events : List Event) (ts ts' : TimeSigDict)
    (lh lh' : Bool) :
    calculate_measure_duration_events events ts lh =
      calculate_measure_duration_events events ts' lh' := rfl

theorem update_current_of_wf (cur : TimeSigDict) (m : Measure)
    (h : sigFieldWf m.time_signature = true) :
    update_current_signature cur m =
      .ok ((specExplicitSig? m.time_signature).getD cur) := by
  cases hf : m.time_signature with
  | str s =>
    rw [hf] at h
    simp only [sigFieldWf] at h
    cases hps : parseSigStr s with
    | skip => simp [update_current_signature, specExplicitSig?, hf, hps]
    | err => rw [hps] at h; simp at h
    | ok t => simp [update_current_signature, specExplicitSig?, hf, hps]
  | ts n d => simp [update_current_signature, specExplicitSig?, hf]
  | none => simp [update_current_signature, specExplicitSig?, hf]
  | other => simp [update_current_signature, specExplicitSig?, hf]

theorem resolve_measure_of_wf (f : TSField) (cur : TimeSigDict)
    (h : sigFieldWf f = true) :
    resolve_measure_signature f (some cur) =
      .ok ((specExplicitSig? f).getD cur) := by
  cases f with
  | str s =>
    simp only [sigFieldWf] at h
    cases hps : parseSigStr s with
    | skip => simp [resolve_measure_signature, specExplicitSig?, hps]
    | err => rw [hps] at h; simp at h
    | ok t => simp [resolve_measure_signature, specExplicitSig?, hps]
  | ts n d => simp [resolve_measure_signature, specExplicitSig?]
  | none => simp [resolve_measure_signature, specExplicitSig?]
  | other => simp [resolve_measure_signature, specExplicitSig?]

/-- Under `sigFieldWf`, any explicit signature has a nonzero denominator. -/
theorem specExplicit_den_ne (f : TSField) (eff : TimeSigDict)
    (h : sigFieldWf f = true) (he : specExplicitSig? f = some eff) :
    eff.denominator ≠ 0 := by
  cases f with
  | str s =>
    simp only [sigFieldWf] at h
    simp only [specExplicitSig?] at he
    cases hps : parseSigStr s with
    | skip => rw [hps] at he; simp at he
    | err => rw [hps] at h; simp at h
    | ok t =>
      rw [hps] at h he
      simp only [Option.some.injEq] at he
      cases he
      simpa using h
  | ts n d =>
    simp only [specExplicitSig?, Option.some.injEq] at he
    cases he
    simp only [sigFieldWf] at h
    simpa using h
  | none => simp [specExplicitSig?] at he
  | other => simp [specExplicitSig?] at he

/-- Carrying a well-formed current signature forward preserves a nonzero
denominator. -/
theorem specGetD_den_ne (f : TSField) (cur : TimeSigDict)
    (h : sigFieldWf f = true) (hcur : cur.denominator ≠ 0) :
    ((specExplicitSig? f).getD cur).denominator ≠ 0 := by
  cases he : specExplicitSig? f with
  | none => simpa using hcur
  | some eff =>
    have := specExplicit_den_ne f eff h he
    simpa using this

theorem pyFraction_ok (n d : Int) (hd : d ≠ 0) :
    pyFraction n d = .ok (Frac.mkSigned n d) := by
  unfold pyFraction
  simp [hd]

theorem Frac.toRat_mkSigned (n d : Int) :
    (Frac.mkSigned n d).toRat = (n : ℚ) / (d : ℚ) := by
  unfold Frac.mkSigned
  by_cases h : d < 0
  · simp only [h, if_true, Frac.toRat]
    push_cast
    rw [neg_div_neg_eq]
  · simp [h, Frac.toRat]

theorem isExcOk_iff {ε α : Type} (e : Except ε α) :
    isExcOk e = true ↔ ∃ x, e = .ok x := by
  cases e with
  | ok x => simp [isExcOk]
  | error err => simp [isExcOk]

/-- The result record `validate_measure` builds (lines 199-210) from the
resolved signature `eff` and the two voice totals. -/
def measure_result_of (m : Measure) (eff : TimeSigDict) (Tr Tl : Frac) :
    MeasureResult :=
  let expected := (Frac.mkSigned eff.numerator eff.denominator).mul ⟨4, 1⟩
  { measure_id := m.id.getD "?"
    time_signature := ndString eff
    expected_duration := expected
    right_hand_duration := Tr
    left_hand_duration := Tl
    right_hand_valid := decide (((Tr.sub expected).abs).le ⟨1, 1000⟩)
    left_hand_valid := decide (((Tl.sub expected).abs).le ⟨1, 1000⟩)
    both_valid := decide (((Tr.sub expected).abs).le ⟨1, 1000⟩) &&
                  decide (((Tl.sub expected).abs).le ⟨1, 1000⟩)
    right_hand_error := (Tr.sub expected).abs
    left_hand_error := (Tl.sub expected).abs }

/-- What `validate_measure` returns for a well-formed measure: the measure's
own explicit signature (if any) overrides the passed one, and the result is
built from the resolved signature and the two voice totals. -/
theorem validate_measure_of_wf (m : Measure) (cur : TimeSigDict)
    (hsig : sigFieldWf m.time_signature = true)
    (hden : ((specExplicitSig? m.time_signature).getD cur).denominator ≠ 0)
    (Tr Tl : Frac)
    (hr : calculate_measure_duration_events m.right_hand ⟨4, 4⟩ false = .ok Tr)
    (hl : calculate_measure_duration_events m.left_hand ⟨4, 4⟩ true = .ok Tl) :
    validate_measure m (some cur) =
      .ok (measure_result_of m ((specExplicitSig? m.time_signature).getD cur) Tr Tl) := by
  have hr' : calculate_measure_duration_events m.right_hand
      ((specExplicitSig? m.time_signature).getD cur) false = .ok Tr := hr
  have hl' : calculate_measure_duration_events m.left_hand
      ((specExplicitSig? m.time_signature).getD cur) true = .ok Tl := hl
  unfold validate_measure
  rw [resolve_measure_of_wf _ _ hsig]
  simp only [Except.bind, Bind.bind, pyFraction_ok _ _ hden, hr', hl',
    pure, Except.pure, measure_result_of]

/-- Resolving a signature field against a current value that is itself the
resolution of the same field is idempotent. -/
theorem specGetD_idem (f : TSField) (cur : TimeSigDict) :
    (specExplicitSig? f).getD ((specExplicitSig? f).getD cur) =
      (specExplicitSig? f).getD cur := by
  cases specExplicitSig? f <;> rfl

theorem specCurrentSig_cons (start : TimeSigDict) (m : Measure) (ms : List Measure) :
    specCurrentSig start (m :: ms) =
      specCurrentSig ((specExplicitSig? m.time_signature).getD start) ms := rfl

/-- The loop of `validate_all_measures` on a list of well-formed measures:
it succeeds, and measure `i` is validated against the fold of the explicit
signatures over the prefix up to `i` — the carry-forward rule. -/
theorem validate_measures_loop_of_wf :
    ∀ (ms : List Measure) (cur : TimeSigDict),
      (∀ m ∈ ms, measureWf m = true) →
      cur.denominator ≠ 0 →
      ∃ rs, validate_measures_loop cur ms = .ok rs ∧
        rs.length = ms.length ∧
        ∀ i (hi : i < ms.length), ∃ Tr Tl,
          calculate_measure_duration_events (ms.get ⟨i, hi⟩).right_hand ⟨4, 4⟩ false
            = .ok Tr ∧
          calculate_measure_duration_events (ms.get ⟨i, hi⟩).left_hand ⟨4, 4⟩ true
            = .ok Tl ∧
          rs[i]? = some (measure_result_of (ms.get ⟨i, hi⟩)
            (specCurrentSig cur (ms.take (i + 1))) Tr Tl) := by
  intro ms
  induction ms with
  | nil =>
    intro cur hwf hden
    exact ⟨[], rfl, rfl, fun i hi => absurd hi (by simp)⟩
  | cons m rest ih =>
    intro cur hwf hden
    have hm : measureWf m = true := hwf m (List.mem_cons_self m rest)
    have hm' := hm
    simp only [measureWf, durationsWf, Bool.and_eq_true] at hm'
    obtain ⟨hsig, hdur1, hdur2⟩ := hm'
    obtain ⟨Tr, hTr⟩ := (isExcOk_iff _).mp hdur1
    obtain ⟨Tl, hTl⟩ := (isExcOk_iff _).mp hdur2
    set cur' := (specExplicitSig? m.time_signature).getD cur with hcur'
    have hden' : cur'.denominator ≠ 0 := specGetD_den_ne _ _ hsig hden
    obtain ⟨rs', hloop, hlen, hidx⟩ :=
      ih cur' (fun x hx => hwf x (List.mem_cons_of_mem _ hx)) hden'
    have hvm : validate_measure m (some cur') =
        .ok (measure_result_of m cur' Tr Tl) := by
      have := validate_measure_of_wf m cur' hsig
        (by rw [hcur', specGetD_idem]; exact hden') Tr Tl hTr hTl
      rwa [hcur', specGetD_idem, ← hcur'] at this
    refine ⟨measure_result_of m cur' Tr Tl :: rs', ?_, by simp [hlen], ?_⟩
    · unfold validate_measures_loop
      rw [update_current_of_wf cur m hsig]
      simp only [Except.bind, Bind.bind, hvm, ← hcur', hloop, pure, Except.pure]
    · intro i hi
      cases i with
      | zero =>
        refine ⟨Tr, Tl, hTr, hTl, ?_⟩
        simp [specCurrentSig, hcur']
      | succ j =>
        have hj : j < rest.length := by simpa using hi
        obtain ⟨Tr', Tl', h1, h2, h3⟩ := hidx j hj
        refine ⟨Tr', Tl', h1, h2, ?_⟩
        simpa [specCurrentSig_cons, hcur'] using h3

theorem resolve_global_of_wf (g : GTSField) (h : globalWf g = true) :
    resolve_global_signature g = .ok (specGlobalDefault g) := by
  cases g with
  | str s =>
    simp only [globalWf] at h
    cases hps : parseSigStr s with
    | skip => simp [resolve_global_signature, specGlobalDefault, specExplicitSig?, hps]
    | err => rw [hps] at h; simp at h
    | ok t => simp [resolve_global_signature, specGlobalDefault, specExplicitSig?, hps]
  | ts n d => rfl
  | none => rfl

theorem specGlobalDefault_den_ne (g : GTSField) (h : globalWf g = true) :
    (specGlobalDefault g).denominator ≠ 0 := by
  cases g with
  | str s =>
    simp only [globalWf] at h
    cases hps : parseSigStr s with
    | skip => simp [specGlobalDefault, specExplicitSig?, hps]
    | err => rw [hps] at h; simp at h
    | ok t =>
      rw [hps] at h
      simp only [specGlobalDefault, specExplicitSig?, hps, Option.getD_some]
      simpa using h
  | ts n d => simpa [specGlobalDefault, globalWf] using h
  | none => simp [specGlobalDefault]

/-- `validate_all_measures` on a well-formed, nonempty score: it returns the
success report, and measure `i`'s result is built against the spec-side
effective signature of index `i`. -/
theorem validate_all_success (md : MusicData) (hwf : scoreWf md = true)
    (hne : md.measures ≠ []) :
    ∃ report,
      validate_all_measures md = .ok (.success report) ∧
      report.measure_results.length = md.measures.length ∧
      ∀ i (hi : i < md.measures.length), ∃ Tr Tl,
        calculate_measure_duration_events (md.measures.get ⟨i, hi⟩).right_hand
          ⟨4, 4⟩ false = .ok Tr ∧
        calculate_measure_duration_events (md.measures.get ⟨i, hi⟩).left_hand
          ⟨4, 4⟩ true = .ok Tl ∧
        report.measure_results[i]? =
          some (measure_result_of (md.measures.get ⟨i, hi⟩) (specEffectiveSig md i) Tr Tl) := by
  have hwf' := hwf
  simp only [scoreWf, Bool.and_eq_true, List.all_eq_true] at hwf'
  obtain ⟨hg, hms⟩ := hwf'
  obtain ⟨rs, hloop, hlen, hidx⟩ :=
    validate_measures_loop_of_wf md.measures (specGlobalDefault md.time_signature)
      (fun m hm => hms m hm) (specGlobalDefault_den_ne _ hg)
  have hie : md.measures.isEmpty = false := by
    cases hml : md.measures with
    | nil => exact absurd hml hne
    | cons a l => rfl
  have hmain : ∃ report,
      validate_all_measures md = .ok (.success report) ∧
      report.measure_results = rs := by
    unfold validate_all_measures
    rw [resolve_global_of_wf _ hg]
    simp only [Except.bind, Bind.bind, hie, Bool.false_eq_true, if_false, hloop,
      pure, Except.pure]
    exact ⟨_, rfl, rfl⟩
  obtain ⟨report, hva, hrep⟩ := hmain
  refine ⟨report, hva, ?_, ?_⟩
  · rw [hrep]
    simpa using hlen
  · intro i hi
    obtain ⟨Tr, Tl, h1, h2, h3⟩ := hidx i hi
    exact ⟨Tr, Tl, h1, h2, by rw [hrep]; exact h3⟩

/-- One step of the prefix fold: the effective signature over a prefix of
length `i + 1` resolves measure `i`'s field against the previous prefix. -/
theorem specCurrentSig_take_succ :
    ∀ (ms : List Measure) (start : TimeSigDict) (i : Nat) (hi : i < ms.length),
    specCurrentSig start (ms.take (i + 1)) =
      (specExplicitSig? (ms.get ⟨i, hi⟩).time_signature).getD
        (specCurrentSig start (ms.take i)) := by
  intro ms
  induction ms with
  | nil => intro start i hi; simp at hi
  | cons m rest ih =>
    intro start i hi
    cases i with
    | zero => rfl
    | succ j =>
      have hj : j < rest.length := by simpa using hi
      simpa [specCurrentSig_cons] using
        ih ((specExplicitSig? m.time_signature).getD start) j hj

/-! ### Denominator positivity: every fraction the parser builds -/

theorem durationLookup_den_pos (k : List Char) : 0 < (durationLookup k).den := by
  unfold durationLookup DURATION_VALUES
  simp only [List.lookup]
  repeat' split
  all_goals decide

theorem parse_nocomma_den_pos (s : List Char) (q : Frac)
    (h : parse_nocomma s = .ok q) : 0 < q.den := by
  unfold parse_nocomma at h
  dsimp only at h
  split at h
  · split at h
    · cases h
    · cases h
      exact durationLookup_den_pos _
  · split at h
    · split at h
      · cases h
        exact durationLookup_den_pos _
      · cases h
        exact durationLookup_den_pos _
    · cases h
      exact durationLookup_den_pos _

theorem foldlM_den_pos {α : Type} (f : Frac → α → Except PyErr Frac)
    (hf : ∀ t p q, 0 < t.den → f t p = .ok q → 0 < q.den) :
    ∀ (l : List α) (total : Frac), 0 < total.den →
    ∀ q, l.foldlM f total = .ok q → 0 < q.den := by
  intro l
  induction l with
  | nil =>
    intro total ht q h
    simp only [List.foldlM, pure, Except.pure] at h
    cases h
    exact ht
  | cons p ps ih =>
    intro total ht q h
    simp only [List.foldlM] at h
    cases hf1 : f total p with
    | error e =>
      rw [hf1] at h
      simp only [Bind.bind, Except.bind] at h
      cases h
    | ok t' =>
      rw [hf1] at h
      simp only [Bind.bind, Except.bind] at h
      exact ih t' (hf _ _ _ ht hf1) q h

theorem parse_chars_step_den_pos (t : Frac) (p : List Char) (q : Frac)
    (ht : 0 < t.den) (h : parse_chars_step t p = .ok q) : 0 < q.den := by
  by_cases h1 : pyStrip p = []
  · simp only [parse_chars_step, h1, if_true, pure, Except.pure, Except.ok.injEq] at h
    cases h
    exact ht
  · by_cases h2 : pyLower (pyStrip (pyStrip p)) = []
    · simp only [parse_chars_step, h1, h2, if_true, if_false, pure, Except.pure,
        Except.ok.injEq] at h
      cases h
      exact ht
    · simp only [parse_chars_step, h1, h2, if_false] at h
      cases hpn : parse_nocomma (pyLower (pyStrip (pyStrip p))) with
      | error e => rw [hpn] at h; cases h
      | ok d =>
        rw [hpn] at h
        simp only [Except.map, Except.ok.injEq] at h
        cases h
        exact mul_pos ht (parse_nocomma_den_pos _ _ hpn)

theorem parse_chars_den_pos (s : List Char) (q : Frac)
    (h : parse_chars s = .ok q) : 0 < q.den := by
  simp only [parse_chars] at h
  split at h
  · cases h; decide
  · split at h
    · cases h; decide
    · split at h
      · exact foldlM_den_pos _ parse_chars_step_den_pos _ ⟨0, 1⟩ (by decide) q h
      · exact parse_nocomma_den_pos _ _ h

theorem parse_atom_den_pos (a : DurationAtom) (q : Frac)
    (h : parse_atom a = .ok q) : 0 < q.den := by
  cases a with
  | pyNone => cases h; decide
  | str s => exact parse_chars_den_pos _ _ h
  | int n =>
    simp only [parse_atom] at h
    split at h
    · cases h; decide
    · exact parse_chars_den_pos _ _ h

theorem parse_duration_den_pos (x : DurationInput) (q : Frac)
    (h : parse_duration x = .ok q) : 0 < q.den := by
  cases x with
  | pyNone => cases h; decide
  | str s => exact parse_chars_den_pos _ _ h
  | int n => exact parse_atom_den_pos (.int n) q h
  | list xs =>
    cases xs with
    | nil => cases h; decide
    | cons y ys => exact parse_atom_den_pos _ _ h

/-- Every voice total the validator computes has a positive denominator. -/
theorem calculate_den_pos (events : List Event) (ts : TimeSigDict) (lh : Bool)
    (q : Frac) (h : calculate_measure_duration_events events ts lh = .ok q) :
    0 < q.den := by
  unfold calculate_measure_duration_events at h
  split at h
  · cases h; decide
  · refine foldlM_den_pos _ ?_ _ ⟨0, 1⟩ (by decide) q h
    intro t p q' ht hstep
    simp only [Bind.bind, Except.bind] at hstep
    cases hpd : parse_duration (p.duration.getD (.str "quarter")) with
    | error e => rw [hpd] at hstep; cases hstep
    | ok d =>
      rw [hpd] at hstep
      simp only [pure, Except.pure] at hstep
      cases hstep
      exact mul_pos ht (parse_duration_den_pos _ _ hpd)

/-! ### Claims -/

/-- **C1**: For every data-model-conformant score and measure index `i`, the
effective time signature used to validate measure `i` — recorded in the
result's rendered `"N/D"` signature and expected duration — is
`specEffectiveSig md i`: the measure's own explicit signature if it carries
one, otherwise the nearest preceding explicit signature (carried forward),
otherwise the score's global default, with 4/4 when the score gives none
(`specGlobalDefault`). The last two conjuncts spell out that the fold
`specEffectiveSig` has exactly this own/carry-forward/default reading. -/
theorem effective_signature_carry_forward (md : MusicData) (i : Nat)
    (hwf : scoreWf md = true) (hi : i < md.measures.length) :
    (∃ report res,
      validate_all_measures md = .ok (.success report) ∧
      report.measure_results[i]? = some res ∧
      res.time_signature = ndString (specEffectiveSig md i) ∧
      res.expected_duration.toRat =
        (((specEffectiveSig md i).numerator : ℚ) * 4) /
          ((specEffectiveSig md i).denominator : ℚ)) ∧
    (∀ t, specExplicitSig? (md.measures.get ⟨i, hi⟩).time_signature = some t →
      specEffectiveSig md i = t) ∧
    (specExplicitSig? (md.measures.get ⟨i, hi⟩).time_signature = Option.none →
      specEffectiveSig md i =
        (if i = 0 then specGlobalDefault md.time_signature
         else specEffectiveSig md (i - 1))) := by
  have hne : md.measures ≠ [] := by
    intro hnil
    rw [hnil] at hi
    simp at hi
  refine ⟨?_, ?_, ?_⟩
  · obtain ⟨report, hva, hlen, hidx⟩ := validate_all_success md hwf hne
    obtain ⟨Tr, Tl, h1, h2, h3⟩ := hidx i hi
    refine ⟨report, _, hva, h3, ?_, ?_⟩
    · simp [measure_result_of]
    · simp only [measure_result_of]
      rw [Frac.toRat_mul, Frac.toRat_mkSigned, Frac.toRat_mk]
      norm_num
      rw [div_mul_eq_mul_div]
  · intro t ht
    unfold specEffectiveSig
    rw [specCurrentSig_take_succ md.measures _ i hi, ht]
    rfl
  · intro ht
    unfold specEffectiveSig
    rw [specCurrentSig_take_succ md.measures _ i hi, ht]
    cases i with
    | zero => rfl
    | succ j => simp [specEffectiveSig]

/-- The Boolean validity flag holds exactly when the absolute error is within
1/1000, read in exact rationals. -/
theorem valid_flag_iff (T expected : Frac) (hT : 0 < T.den) (hE : 0 < expected.den) :
    (decide (((T.sub expected).abs).le ⟨1, 1000⟩) = true) ↔
      |T.toRat - expected.toRat| ≤ 1/1000 := by
  rw [decide_eq_true_iff]
  rw [Frac.le_iff _ _ (Frac.abs_den_pos (Frac.sub_den_pos hT hE))
    (by decide : 0 < (⟨1, 1000⟩ : Frac).den)]
  rw [Frac.toRat_abs _ (Frac.sub_den_pos hT hE), Frac.toRat_sub _ _ hT hE]
  norm_num [Frac.toRat_mk]

/-- The exact rational expected duration `Fraction(n, d) * 4 = n * 4 / d`. -/
theorem expected_toRat (ts : TimeSigDict) :
    ((Frac.mkSigned ts.numerator ts.denominator).mul ⟨4, 1⟩).toRat =
      ((ts.numerator : ℚ) * 4) / (ts.denominator : ℚ) := by
  rw [Frac.toRat_mul, Frac.toRat_mkSigned, Frac.toRat_mk]
  norm_num
  rw [div_mul_eq_mul_div]

/-- **C2**: For every measure and effective signature with expected duration
`E = numerator * 4 / denominator` (exact rational), a voice summing to `T` is
marked valid iff `|T - E| <= 1/1000`, and `both_valid` is the conjunction of
the two voices' flags. In particular (last two conjuncts) an error of exactly
`0.001` beats — empty voice against a 1/4000 signature, `E = 1/1000` — is
valid, while a strictly greater error — 1/3999, `E = 4/3999 > 1/1000` — is
invalid. -/
theorem voice_validity_tolerance :
    (∀ (m : Measure) (ts : TimeSigDict), m.time_signature = TSField.none →
      ts.denominator ≠ 0 → ∀ (Tr Tl : Frac),
      calculate_measure_duration_events m.right_hand ⟨4, 4⟩ false = .ok Tr →
      calculate_measure_duration_events m.left_hand ⟨4, 4⟩ true = .ok Tl →
      ∃ res, validate_measure m (some ts) = .ok res ∧
        (res.right_hand_valid = true ↔
          |Tr.toRat - ((ts.numerator : ℚ) * 4) / (ts.denominator : ℚ)| ≤ 1/1000) ∧
        (res.left_hand_valid = true ↔
          |Tl.toRat - ((ts.numerator : ℚ) * 4) / (ts.denominator : ℚ)| ≤ 1/1000) ∧
        res.both_valid = (res.right_hand_valid && res.left_hand_valid)) ∧
    ((validate_measure
        { id := some "b", time_signature := TSField.none, right_hand := [], left_hand := [] }
        (some ⟨1, 4000⟩)).map (fun r => r.right_hand_valid) = .ok true) ∧
    ((validate_measure
        { id := some "b", time_signature := TSField.none, right_hand := [], left_hand := [] }
        (some ⟨1, 3999⟩)).map (fun r => r.right_hand_valid) = .ok false) := by
  refine ⟨?_, by decide, by decide⟩
  intro m ts hsig hden Tr Tl hTr hTl
  have hgd : (specExplicitSig? m.time_signature).getD ts = ts := by
    rw [hsig]
    rfl
  have hwfsig : sigFieldWf m.time_signature = true := by
    rw [hsig]
    rfl
  have h := validate_measure_of_wf m ts hwfsig (by rw [hgd]; exact hden) Tr Tl hTr hTl
  rw [hgd] at h
  have hEpos : 0 < ((Frac.mkSigned ts.numerator ts.denominator).mul ⟨4, 1⟩).den :=
    Frac.mul_den_pos (Frac.mkSigned_den_pos hden) (by decide)
  refine ⟨_, h, ?_, ?_, ?_⟩
  · show (decide _ = true) ↔ _
    rw [valid_flag_iff _ _ (calculate_den_pos _ _ _ _ hTr) hEpos, expected_toRat]
  · show (decide _ = true) ↔ _
    rw [valid_flag_iff _ _ (calculate_den_pos _ _ _ _ hTl) hEpos, expected_toRat]
  · rfl

/-- Witness for C2: a measure of four quarters (right) and one whole (left)
against 4/4 — both voices land exactly on 4 beats, within tolerance. -/
theorem voice_validity_tolerance_witness :
    ∃ res,
      validate_measure
        { id := some "w", time_signature := TSField.none,
          right_hand := [⟨["C4"], some (.str "quarter")⟩, ⟨["D4"], some (.str "quarter")⟩,
                         ⟨["E4"], some (.str "quarter")⟩, ⟨["F4"], some (.str "quarter")⟩],
          left_hand := [⟨["C2", "G2"], some (.str "whole")⟩] }
        (some ⟨4, 4⟩) = .ok res ∧
      (res.right_hand_valid = true ↔
        |Frac.toRat ⟨4, 1⟩ - ((4 : ℚ) * 4) / (4 : ℚ)| ≤ 1/1000) ∧
      (res.left_hand_valid = true ↔
        |Frac.toRat ⟨4, 1⟩ - ((4 : ℚ) * 4) / (4 : ℚ)| ≤ 1/1000) ∧
      res.both_valid = (res.right_hand_valid && res.left_hand_valid) :=
  voice_validity_tolerance.1
    { id := some "w", time_signature := TSField.none,
      right_hand := [⟨["C4"], some (.str "quarter")⟩, ⟨["D4"], some (.str "quarter")⟩,
                     ⟨["E4"], some (.str "quarter")⟩, ⟨["F4"], some (.str "quarter")⟩],
      left_hand := [⟨["C2", "G2"], some (.str "whole")⟩] }
    ⟨4, 4⟩ rfl (by decide) ⟨4, 1⟩ ⟨4, 1⟩ (by decide) (by decide)

/-- **C5**: Parsing a non-empty list of duration tokens yields exactly the
parse of its last element, never the sum; the empty list parses to zero. In
particular `parse(["half","sixteenth"]) = parse("sixteenth") = 1/4`, not
`2 + 1/4`. -/
theorem list_duration_last_element_only :
    (∀ (xs : List DurationAtom) (h : xs ≠ []),
      parse_duration (.list xs) = parse_duration (xs.getLast h).toInput) ∧
    parse_duration (.list []) = .ok ⟨0, 1⟩ ∧
    parse_duration (.list [.str "half", .str "sixteenth"]) =
      parse_duration (.str "sixteenth") ∧
    parse_duration (.list [.str "half", .str "sixteenth"]) = .ok ⟨1, 4⟩ ∧
    Frac.toRat ⟨1, 4⟩ ≠ Frac.toRat ⟨2, 1⟩ + Frac.toRat ⟨1, 4⟩ := by
  refine ⟨?_, rfl, by decide, by decide, by norm_num [Frac.toRat]⟩
  intro xs h
  cases xs with
  | nil => exact absurd rfl h
  | cons x rest =>
    rw [parse_atom_toInput]
    rfl

/-- Witness for C5 at the concrete two-token list of the specification. -/
theorem list_duration_last_element_only_witness :
    parse_duration (.list [.str "half", .str "sixteenth"]) =
      parse_duration
        (([.str "half", .str "sixteenth"] : List DurationAtom).getLast
          (List.cons_ne_nil _ _)).toInput :=
  list_duration_last_element_only.1 [.str "half", .str "sixteenth"]
    (List.cons_ne_nil _ _)

/-- The voice-total fold with an arbitrary start: every event parses, and the
total is the start plus the rational sum of the parses, in order. -/
theorem calc_fold_sum :
    ∀ (events : List Event) (init : Frac) (T : Frac), 0 < init.den →
      events.foldlM
        (fun total event => do
          let duration ← parse_duration (event.duration.getD (.str "quarter"))
          pure (total.add duration)) init = .ok T →
      ∃ ds : List Frac,
        events.map (fun e => parse_duration (e.duration.getD (.str "quarter"))) =
          ds.map .ok ∧
        T.toRat = init.toRat + (ds.map Frac.toRat).sum := by
  intro events
  induction events with
  | nil =>
    intro init T hpos h
    simp only [List.foldlM, pure, Except.pure, Except.ok.injEq] at h
    cases h
    exact ⟨[], rfl, by simp⟩
  | cons e rest ih =>
    intro init T hpos h
    simp only [List.foldlM, Bind.bind, Except.bind] at h
    cases hpd : parse_duration (e.duration.getD (.str "quarter")) with
    | error err =>
      rw [hpd] at h
      cases h
    | ok d =>
      rw [hpd] at h
      simp only [pure, Except.pure] at h
      have hd : 0 < d.den := parse_duration_den_pos _ _ hpd
      obtain ⟨ds, hmap, hsum⟩ := ih (init.add d) T (mul_pos hpos hd) h
      refine ⟨d :: ds, by simp [hpd, hmap], ?_⟩
      rw [hsum, Frac.toRat_add _ _ hpos hd]
      simp [add_assoc]

/-- **C6**: A voice's duration is the ordered sum of the parses of its
events' single duration expressions: the result depends only on the sequence
of duration expressions (never on how many simultaneous pitches an event's
`notes` list holds), it equals the rational sum of the per-event parses, a
chord event with several pitches and one token contributes exactly that
token's duration, and an empty voice sums to zero. -/
theorem voice_sum_of_event_durations :
    (∀ (er el : List Event) (ts ts' : TimeSigDict) (lh lh' : Bool),
      er.map (fun e => e.duration) = el.map (fun e => e.duration) →
      calculate_measure_duration_events er ts lh =
        calculate_measure_duration_events el ts' lh') ∧
    (∀ (events : List Event) (ts : TimeSigDict) (lh : Bool) (T : Frac),
      calculate_measure_duration_events events ts lh = .ok T →
      ∃ ds : List Frac,
        events.map (fun e => parse_duration (e.duration.getD (.str "quarter"))) =
          ds.map .ok ∧
        T.toRat = (ds.map Frac.toRat).sum) ∧
    (calculate_measure_duration_events
        [⟨["C4", "E4", "G4"], some (.str "half")⟩] ⟨4, 4⟩ false =
      calculate_measure_duration_events [⟨["C4"], some (.str "half")⟩] ⟨4, 4⟩ false) ∧
    (calculate_measure_duration_events
        [⟨["C4", "E4", "G4"], some (.str "half")⟩] ⟨4, 4⟩ false = .ok ⟨2, 1⟩) ∧
    (∀ (ts : TimeSigDict) (lh : Bool),
      calculate_measure_duration_events [] ts lh = .ok ⟨0, 1⟩) := by
  refine ⟨?_, ?_, by decide, by decide, fun ts lh => rfl⟩
  · have key : ∀ (er el : List Event) (init : Frac),
        er.map (fun e => e.duration) = el.map (fun e => e.duration) →
        er.foldlM
          (fun total event => do
            let duration ← parse_duration (event.duration.getD (.str "quarter"))
            pure (total.add duration)) init =
        el.foldlM
          (fun total event => do
            let duration ← parse_duration (event.duration.getD (.str "quarter"))
            pure (total.add duration)) init := by
      intro er
      induction er with
      | nil =>
        intro el init hmap
        cases el with
        | nil => rfl
        | cons y ys => simp at hmap
      | cons x xs ih =>
        intro el init hmap
        cases el with
        | nil => simp at hmap
        | cons y ys =>
          simp only [List.map_cons, List.cons.injEq] at hmap
          obtain ⟨hd, htl⟩ := hmap
          simp only [List.foldlM, hd]
          cases parse_duration (y.duration.getD (.str "quarter")) with
          | error e => rfl
          | ok d =>
            simp only [Bind.bind, Except.bind, pure, Except.pure]
            exact ih ys _ htl
    intro er el ts ts' lh lh' hmap
    unfold calculate_measure_duration_events
    have hlen : er.isEmpty = el.isEmpty := by
      cases er with
      | nil => cases el with
        | nil => rfl
        | cons y ys => simp at hmap
      | cons x xs => cases el with
        | nil => simp at hmap
        | cons y ys => rfl
    rw [hlen]
    cases el.isEmpty with
    | true => rfl
    | false =>
      simp only [Bool.false_eq_true, if_false]
      exact key er el ⟨0, 1⟩ hmap
  · intro events ts lh T h
    unfold calculate_measure_duration_events at h
    split at h
    · cases h
      rename_i he
      simp only [List.isEmpty_eq_true] at he
      exact ⟨[], by simp [he], by simp [Frac.toRat]⟩
    · obtain ⟨ds, hmap, hsum⟩ := calc_fold_sum events ⟨0, 1⟩ T (by decide) h
      refine ⟨ds, hmap, ?_⟩
      rw [hsum]
      simp [Frac.toRat]

/-- Witness for C6: the chord event of the specification — three simultaneous
pitches, one "half" token — contributes exactly 2 beats. -/
theorem voice_sum_of_event_durations_witness :
    ∃ ds : List Frac,
      ([⟨["C4", "E4", "G4"], some (.str "half")⟩] : List Event).map
          (fun e => parse_duration (e.duration.getD (.str "quarter"))) =
        ds.map .ok ∧
      Frac.toRat ⟨2, 1⟩ = (ds.map Frac.toRat).sum :=
  voice_sum_of_event_durations.2.1
    [⟨["C4", "E4", "G4"], some (.str "half")⟩] ⟨4, 4⟩ false ⟨2, 1⟩ (by decide)

/-- **C9 counterexample**: an event whose `duration` field is entirely absent
is defaulted to `"quarter"` by `event.get("duration", "quarter")` and
contributes 1 beat — not 0 as the claim states. -/
theorem missing_duration_field_cex :
    calculate_measure_duration_events [⟨["C4"], Option.none⟩] ⟨4, 4⟩ false =
      .ok ⟨1, 1⟩ ∧
    Frac.toRat ⟨1, 1⟩ ≠ 0 := by
  constructor
  · decide
  · norm_num [Frac.toRat]

theorem parse_blank_str (s : String) (h : pyStrip s.toList = []) :
    parse_duration (.str s) = .ok ⟨0, 1⟩ := by
  show parse_chars s.toList = _
  unfold parse_chars
  by_cases hnil : s.toList = []
  · rw [if_pos hnil]
  · rw [if_neg hnil, h]
    rfl

theorem calc_cons_zero (e : Event) (rest : List Event) (ts : TimeSigDict)
    (lh : Bool)
    (h : parse_duration (e.duration.getD (.str "quarter")) = .ok ⟨0, 1⟩) :
    calculate_measure_duration_events (e :: rest) ts lh =
      calculate_measure_duration_events rest ts lh := by
  unfold calculate_measure_duration_events
  cases rest with
  | nil =>
    simp [List.foldlM, h, Bind.bind, Except.bind, pure, Except.pure, Frac.add]
  | cons r rs =>
    simp only [List.isEmpty_cons, Bool.false_eq_true, if_false]
    simp only [List.foldlM, h, Bind.bind, Except.bind, pure, Except.pure]
    have : (⟨0, 1⟩ : Frac).add ⟨0, 1⟩ = ⟨0, 1⟩ := by decide
    rw [this]

/-- **C9 amended**: an event with duration Python `None` or an empty or
whitespace-only duration string contributes exactly 0 beats; but an event
missing the `duration` field entirely is defaulted to `"quarter"` and
contributes 1 beat. -/
theorem empty_duration_contributes_zero :
    (∀ (e : Event) (rest : List Event) (ts : TimeSigDict) (lh : Bool),
      e.duration = some .pyNone →
      calculate_measure_duration_events (e :: rest) ts lh =
        calculate_measure_duration_events rest ts lh) ∧
    (∀ (e : Event) (rest : List Event) (ts : TimeSigDict) (lh : Bool) (s : String),
      e.duration = some (.str s) → pyStrip s.toList = [] →
      calculate_measure_duration_events (e :: rest) ts lh =
        calculate_measure_duration_events rest ts lh) ∧
    (∀ (e : Event) (rest : List Event) (ts : TimeSigDict) (lh : Bool),
      e.duration = Option.none →
      calculate_measure_duration_events (e :: rest) ts lh =
        calculate_measure_duration_events
          ({ notes := e.notes, duration := some (.str "quarter") } :: rest) ts lh) ∧
    (calculate_measure_duration_events [⟨["C4"], Option.none⟩] ⟨4, 4⟩ false =
      .ok ⟨1, 1⟩) := by
  refine ⟨?_, ?_, ?_, by decide⟩
  · intro e rest ts lh hd
    exact calc_cons_zero e rest ts lh (by rw [hd]; rfl)
  · intro e rest ts lh s hd hblank
    refine calc_cons_zero e rest ts lh ?_
    rw [hd]
    exact parse_blank_str s hblank
  · intro e rest ts lh hd
    unfold calculate_measure_duration_events
    simp only [List.isEmpty_cons, Bool.false_eq_true, if_false]
    simp only [List.foldlM, hd]
    rfl

/-- Witness for C9 amended: a `None` duration and a whitespace duration both
contribute nothing; the missing-field event equals its "quarter" rewrite. -/
theorem empty_duration_contributes_zero_witness :
    calculate_measure_duration_events
        [⟨["C4"], some .pyNone⟩, ⟨["D4"], some (.str "quarter")⟩] ⟨4, 4⟩ false =
      calculate_measure_duration_events [⟨["D4"], some (.str "quarter")⟩] ⟨4, 4⟩ false ∧
    calculate_measure_duration_events
        [⟨["E4"], some (.str "   ")⟩, ⟨["D4"], some (.str "quarter")⟩] ⟨3, 4⟩ true =
      calculate_measure_duration_events [⟨["D4"], some (.str "quarter")⟩] ⟨3, 4⟩ true ∧
    calculate_measure_duration_events [⟨["C4"], Option.none⟩] ⟨4, 4⟩ false =
      calculate_measure_duration_events [⟨["C4"], some (.str "quarter")⟩] ⟨4, 4⟩ false :=
  ⟨empty_duration_contributes_zero.1 _ _ ⟨4, 4⟩ false rfl,
   empty_duration_contributes_zero.2.1 _ _ ⟨3, 4⟩ true "   " rfl (by decide),
   empty_duration_contributes_zero.2.2.1 ⟨["C4"], Option.none⟩ [] ⟨4, 4⟩ false rfl⟩

/-- `parse_chars` with its local bindings expanded (definitional). -/
theorem parse_chars_eq (cs : List Char) :
    parse_chars cs =
      if cs = [] then .ok ⟨0, 1⟩
      else if pyLower (pyStrip cs) = [] then .ok ⟨0, 1⟩
      else if (pyLower (pyStrip cs)).contains ',' then
        (pySplit ',' (pyLower (pyStrip cs))).foldlM parse_chars_step ⟨0, 1⟩
      else parse_nocomma (pyLower (pyStrip cs)) := rfl

/-- `parse_nocomma` with its local bindings expanded (definitional). -/
theorem parse_nocomma_eq (cs : List Char) :
    parse_nocomma cs =
      if cs.contains '*' then
        match pyInt? (pyStrip ((pySplit '*' cs).getD 0 [])) with
        | Option.none => .error (.valueError "invalid literal for int")
        | some multiplier =>
          .ok (Frac.intMul multiplier
            (durationLookup (pyStrip ((pySplit '*' cs).getD 1 []))))
      else
        match pySplitWs cs with
        | w0 :: w1 :: _ =>
          (match number_words.lookup w0 with
           | some multiplier =>
             .ok (Frac.intMul multiplier (durationLookup
               (if pyLower w1 = "eigths".toList ∨ pyLower w1 = "eigth".toList then
                  "eighth".toList
                else if pyLower w1 = "sixteenths".toList then "sixteenth".toList
                else pyLower w1)))
           | Option.none => .ok (durationLookup cs))
        | _ => .ok (durationLookup cs) := rfl

/-- Reading a successful string parse in exact rationals. -/
theorem parse_str_toRat (tok : String) (f : Frac) (q : ℚ)
    (h1 : parse_duration (.str tok) = .ok f) (h2 : f.toRat = q) :
    (parse_duration (.str tok)).map Frac.toRat = .ok q := by
  rw [h1]
  simp [Except.map, h2]

/-- **C7 counterexample**: the fixed table's key is `"thirty_second"` (with
an underscore); the hyphenated name `"thirty-second"` used by the claim is
unrecognized and parses to 0, not 1/8. -/
theorem duration_table_hyphen_cex :
    parse_duration (.str "thirty-second") = .ok ⟨0, 1⟩ ∧
    Frac.toRat ⟨0, 1⟩ ≠ 1/8 := by
  constructor
  · decide
  · norm_num [Frac.toRat]

/-- **C7 amended**: the fixed table lookup is case-insensitive and maps
whole=4, half=2, quarter=1, eighth=1/2, sixteenth=1/4, rest=0, with the
thirty-second note under the key `"thirty_second"` (underscore) = 1/8 —
the hyphenated `"thirty-second"` is unrecognized and parses to 0 — each
dotted variant equal to 3/2 times its undotted counterpart, and any
unrecognized simple name parsing to 0; `parse("QUARTER") = parse("quarter")
= 1`. -/
theorem duration_table_lookup :
    ((parse_duration (.str "whole")).map Frac.toRat = .ok 4) ∧
    ((parse_duration (.str "half")).map Frac.toRat = .ok 2) ∧
    ((parse_duration (.str "quarter")).map Frac.toRat = .ok 1) ∧
    ((parse_duration (.str "eighth")).map Frac.toRat = .ok (1/2)) ∧
    ((parse_duration (.str "sixteenth")).map Frac.toRat = .ok (1/4)) ∧
    ((parse_duration (.str "thirty_second")).map Frac.toRat = .ok (1/8)) ∧
    ((parse_duration (.str "rest")).map Frac.toRat = .ok 0) ∧
    ((parse_duration (.str "dotted whole")).map Frac.toRat = .ok ((3/2) * 4)) ∧
    ((parse_duration (.str "dotted half")).map Frac.toRat = .ok ((3/2) * 2)) ∧
    ((parse_duration (.str "dotted quarter")).map Frac.toRat = .ok ((3/2) * 1)) ∧
    ((parse_duration (.str "dotted eighth")).map Frac.toRat = .ok ((3/2) * (1/2))) ∧
    ((parse_duration (.str "dotted sixteenth")).map Frac.toRat = .ok ((3/2) * (1/4))) ∧
    (parse_duration (.str "QUARTER") = parse_duration (.str "quarter")) ∧
    ((parse_duration (.str "QUARTER")).map Frac.toRat = .ok 1) ∧
    (parse_duration (.str "thirty-second") = .ok ⟨0, 1⟩) ∧
    (∀ s : String,
      (pyLower (pyStrip s.toList)).contains ',' = false →
      (pyLower (pyStrip s.toList)).contains '*' = false →
      (match pySplitWs (pyLower (pyStrip s.toList)) with
        | w0 :: _ :: _ => (number_words.lookup w0).isNone
        | _ => true) = true →
      DURATION_VALUES.lookup (pyLower (pyStrip s.toList)) = Option.none →
      parse_duration (.str s) = .ok ⟨0, 1⟩) := by
  have pv := parse_str_toRat
  refine ⟨pv _ ⟨4, 1⟩ _ (by decide) (by norm_num [Frac.toRat]),
    pv _ ⟨2, 1⟩ _ (by decide) (by norm_num [Frac.toRat]),
    pv _ ⟨1, 1⟩ _ (by decide) (by norm_num [Frac.toRat]),
    pv _ ⟨1, 2⟩ _ (by decide) (by norm_num [Frac.toRat]),
    pv _ ⟨1, 4⟩ _ (by decide) (by norm_num [Frac.toRat]),
    pv _ ⟨1, 8⟩ _ (by decide) (by norm_num [Frac.toRat]),
    pv _ ⟨0, 1⟩ _ (by decide) (by norm_num [Frac.toRat]),
    pv _ ⟨6, 1⟩ _ (by decide) (by norm_num [Frac.toRat]),
    pv _ ⟨3, 1⟩ _ (by decide) (by norm_num [Frac.toRat]),
    pv _ ⟨3, 2⟩ _ (by decide) (by norm_num [Frac.toRat]),
    pv _ ⟨3, 4⟩ _ (by decide) (by norm_num [Frac.toRat]),
    pv _ ⟨3, 8⟩ _ (by decide) (by norm_num [Frac.toRat]),
    by decide,
    pv _ ⟨1, 1⟩ _ (by decide) (by norm_num [Frac.toRat]),
    by decide, ?_⟩
  intro s hc hs hw hl
  show parse_chars s.toList = _
  rw [parse_chars_eq]
  by_cases hnil : s.toList = []
  · rw [if_pos hnil]
  · rw [if_neg hnil]
    by_cases hempty : pyLower (pyStrip s.toList) = []
    · rw [if_pos hempty]
    · rw [if_neg hempty, if_neg (by rw [hc]; exact Bool.false_ne_true),
        parse_nocomma_eq, if_neg (by rw [hs]; exact Bool.false_ne_true)]
      cases hws : pySplitWs (pyLower (pyStrip s.toList)) with
      | nil => simp only [durationLookup, hl, Option.getD_none]
      | cons w0 rest =>
        cases rest with
        | nil => simp only [durationLookup, hl, Option.getD_none]
        | cons w1 rest' =>
          rw [hws] at hw
          simp only [Option.isNone_iff_eq_none] at hw
          simp only [hw, durationLookup, hl, Option.getD_none]

/-- Witness for C7 amended: an unrecognized token parses to zero. -/
theorem duration_table_lookup_witness :
    parse_duration (.str "blargh") = .ok ⟨0, 1⟩ :=
  duration_table_lookup.2.2.2.2.2.2.2.2.2.2.2.2.2.2.2 "blargh"
    (by decide) (by decide) (by decide) (by decide)

/-- **C8**: the `<int> * <token>` and spelled-out-count forms multiply the
base token's looked-up value by the integer count; the spelled-out branch
normalizes the known unit misspellings ("eigth(s)" → eighth, "sixteenths" →
sixteenth) before lookup (first two conjuncts, following the code's two
branches). Concretely `parse("3 * eighth") = 3/2 = 3 * parse("eighth")`,
`parse("seven sixteenth") = 7/4 = 7 * parse("sixteenth")`, and the
normalized `parse("three eigths") = parse("three eigth") = 3/2`,
`parse("three sixteenths") = 3/4`. -/
theorem multiplicative_count_forms :
    (∀ (s : String) (a b : List Char) (rest : List (List Char)) (m : Int),
      (pyLower (pyStrip s.toList)).contains ',' = false →
      (pyLower (pyStrip s.toList)).contains '*' = true →
      pySplit '*' (pyLower (pyStrip s.toList)) = a :: b :: rest →
      pyInt? (pyStrip a) = some m →
      parse_duration (.str s) = .ok (Frac.intMul m (durationLookup (pyStrip b)))) ∧
    (∀ (s : String) (w0 w1 : List Char) (rest : List (List Char)) (m : Nat),
      (pyLower (pyStrip s.toList)).contains ',' = false →
      (pyLower (pyStrip s.toList)).contains '*' = false →
      pySplitWs (pyLower (pyStrip s.toList)) = w0 :: w1 :: rest →
      number_words.lookup w0 = some m →
      parse_duration (.str s) = .ok (Frac.intMul m (durationLookup
        (if pyLower w1 = "eigths".toList ∨ pyLower w1 = "eigth".toList then
           "eighth".toList
         else if pyLower w1 = "sixteenths".toList then "sixteenth".toList
         else pyLower w1)))) ∧
    ((parse_duration (.str "3 * eighth")).map Frac.toRat = .ok (3/2)) ∧
    ((parse_duration (.str "eighth")).map Frac.toRat = .ok (1/2)) ∧
    ((3/2 : ℚ) = 3 * (1/2)) ∧
    ((parse_duration (.str "seven sixteenth")).map Frac.toRat = .ok (7/4)) ∧
    ((parse_duration (.str "sixteenth")).map Frac.toRat = .ok (1/4)) ∧
    ((7/4 : ℚ) = 7 * (1/4)) ∧
    ((parse_duration (.str "three eigths")).map Frac.toRat = .ok (3/2)) ∧
    ((parse_duration (.str "three eigth")).map Frac.toRat = .ok (3/2)) ∧
    ((parse_duration (.str "three sixteenths")).map Frac.toRat = .ok (3/4)) := by
  refine ⟨?_, ?_,
    parse_str_toRat _ ⟨3, 2⟩ _ (by decide) (by norm_num [Frac.toRat]),
    parse_str_toRat _ ⟨1, 2⟩ _ (by decide) (by norm_num [Frac.toRat]),
    by norm_num,
    parse_str_toRat _ ⟨7, 4⟩ _ (by decide) (by norm_num [Frac.toRat]),
    parse_str_toRat _ ⟨1, 4⟩ _ (by decide) (by norm_num [Frac.toRat]),
    by norm_num,
    parse_str_toRat _ ⟨3, 2⟩ _ (by decide) (by norm_num [Frac.toRat]),
    parse_str_toRat _ ⟨3, 2⟩ _ (by decide) (by norm_num [Frac.toRat]),
    parse_str_toRat _ ⟨3, 4⟩ _ (by decide) (by norm_num [Frac.toRat])⟩
  · intro s a b rest m hc hs hsplit hint
    have ht_ne : pyLower (pyStrip s.toList) ≠ [] := by
      intro h0
      rw [h0] at hs
      simp [List.contains] at hs
    have hsnil : s.toList ≠ [] := fun h0 => ht_ne (by rw [h0]; rfl)
    show parse_chars s.toList = _
    rw [parse_chars_eq, if_neg hsnil, if_neg ht_ne,
      if_neg (by rw [hc]; exact Bool.false_ne_true), parse_nocomma_eq, if_pos hs,
      hsplit]
    simp only [List.getD_cons_zero, List.getD_cons_succ, hint]
  · intro s w0 w1 rest m hc hs hws hnw
    have ht_ne : pyLower (pyStrip s.toList) ≠ [] := by
      intro h0
      rw [h0] at hws
      simp [pySplitWs, pySplitIf] at hws
    have hsnil : s.toList ≠ [] := fun h0 => ht_ne (by rw [h0]; rfl)
    show parse_chars s.toList = _
    rw [parse_chars_eq, if_neg hsnil, if_neg ht_ne,
      if_neg (by rw [hc]; exact Bool.false_ne_true), parse_nocomma_eq,
      if_neg (by rw [hs]; exact Bool.false_ne_true), hws]
    simp only [hnw]

/-- Witness for C8: the two general branch conjuncts applied at the
specification's own inputs "3 * eighth" and "seven sixteenth". -/
theorem multiplicative_count_forms_witness :
    parse_duration (.str "3 * eighth") =
      .ok (Frac.intMul 3 (durationLookup (pyStrip " eighth".toList))) ∧
    parse_duration (.str "seven sixteenth") =
      .ok (Frac.intMul 7 (durationLookup
        (if pyLower "sixteenth".toList = "eigths".toList ∨
            pyLower "sixteenth".toList = "eigth".toList then "eighth".toList
         else if pyLower "sixteenth".toList = "sixteenths".toList then
           "sixteenth".toList
         else pyLower "sixteenth".toList))) :=
  ⟨multiplicative_count_forms.1 "3 * eighth" "3 ".toList " eighth".toList [] 3
    (by decide) (by decide) (by decide) (by decide),
   multiplicative_count_forms.2.1 "seven sixteenth" "seven".toList
    "sixteenth".toList [] 7 (by decide) (by decide) (by decide) (by decide)⟩

/-- **C4 counterexample**: the duration parser is not total on every input —
on "a * b" the `int(parts[0].strip())` of the `*` branch raises ValueError
rather than returning a zero-beat duration. -/
theorem parser_not_total_cex :
    parse_duration (.str "a * b") =
      .error (.valueError "invalid literal for int") ∧
    isExcOk (parse_duration (.str "a * b")) = false := by
  constructor <;> decide

/-- A `Char.ofNat` of a valid codepoint reads back as that codepoint. -/
theorem char_toNat_ofNat_valid (n : Nat) (h : n.isValidChar) :
    (Char.ofNat n).toNat = n := by
  unfold Char.ofNat
  rw [dif_pos h]
  rfl

/-- `Char.toLower` maps only uppercase letters; the only preimage of `'*'`
is `'*'` itself. -/
theorem toLower_star_eq (c : Char) (h : c.toLower = ('*' : Char)) :
    c = ('*' : Char) := by
  have h' : (if c.toNat ≥ 65 ∧ c.toNat ≤ 90 then Char.ofNat (c.toNat + 32) else c) =
      ('*' : Char) := h
  by_cases hr : c.toNat ≥ 65 ∧ c.toNat ≤ 90
  · exfalso
    rw [if_pos hr] at h'
    have hv : (c.toNat + 32).isValidChar := by
      unfold Nat.isValidChar
      omega
    have h2 := congrArg Char.toNat h'
    rw [char_toNat_ofNat_valid _ hv] at h2
    have h42 : ('*' : Char).toNat = 42 := rfl
    rw [h42] at h2
    omega
  · rwa [if_neg hr] at h'

/-- Stripping keeps only characters of the original list. -/
theorem mem_of_mem_pyStrip {c : Char} {cs : List Char} (h : c ∈ pyStrip cs) :
    c ∈ cs := by
  unfold pyStrip at h
  rw [List.mem_reverse] at h
  have h1 := (List.dropWhile_sublist _).subset h
  rw [List.mem_reverse] at h1
  exact (List.dropWhile_sublist _).subset h1

theorem pySplitIf_ne_nil (p : Char → Bool) (cs : List Char) :
    pySplitIf p cs ≠ [] := by
  induction cs with
  | nil => simp [pySplitIf]
  | cons c cs ih =>
    unfold pySplitIf
    split
    · simp
    · split
      · simp
      · simp

/-- Every character of every piece of a split occurs in the split input. -/
theorem mem_of_mem_pySplitIf {p : Char → Bool} :
    ∀ {cs part : List Char} {c : Char},
    part ∈ pySplitIf p cs → c ∈ part → c ∈ cs := by
  intro cs
  induction cs with
  | nil =>
    intro part c hp hc
    simp only [pySplitIf, List.mem_singleton] at hp
    rw [hp] at hc
    simp at hc
  | cons x xs ih =>
    intro part c hp hc
    unfold pySplitIf at hp
    by_cases hx : p x = true
    · rw [if_pos hx] at hp
      rcases List.mem_cons.mp hp with h1 | h2
      · rw [h1] at hc
        simp at hc
      · exact List.mem_cons_of_mem _ (ih h2 hc)
    · rw [if_neg hx] at hp
      cases hrec : pySplitIf p xs with
      | nil => exact absurd hrec (pySplitIf_ne_nil p xs)
      | cons r rs =>
        rw [hrec] at hp
        rcases List.mem_cons.mp hp with h1 | h2
        · rw [h1] at hc
          rcases List.mem_cons.mp hc with hcx | hcr
          · rw [hcx]
            exact List.mem_cons_self _ _
          · refine List.mem_cons_of_mem _ (ih ?_ hcr)
            rw [hrec]
            exact List.mem_cons_self r rs
        · refine List.mem_cons_of_mem _ (ih ?_ hc)
          rw [hrec]
          exact List.mem_cons_of_mem _ h2

/-- Lowering introduces no `'*'`. -/
theorem star_not_mem_pyLower {cs : List Char} (h : ('*' : Char) ∉ cs) :
    ('*' : Char) ∉ pyLower cs := by
  intro hmem
  unfold pyLower at hmem
  rcases List.mem_map.mp hmem with ⟨c, hc, hcl⟩
  rw [toLower_star_eq c hcl] at hc
  exact h hc

/-- The comma-free tail never raises on a star-free token. -/
theorem parse_nocomma_ok_of_no_star (cs : List Char)
    (h : cs.contains '*' = false) : isExcOk (parse_nocomma cs) = true := by
  rw [parse_nocomma_eq, if_neg (by rw [h]; exact Bool.false_ne_true)]
  cases pySplitWs cs with
  | nil => rfl
  | cons w0 rest =>
    cases rest with
    | nil => rfl
    | cons w1 rest' =>
      cases hnw : number_words.lookup w0 with
      | none => simp [hnw, isExcOk]
      | some m => simp [hnw, isExcOk]

/-- One comma-branch summand never raises on a star-free part. -/
theorem parse_chars_step_ok (total : Frac) (p : List Char)
    (h : ('*' : Char) ∉ p) : isExcOk (parse_chars_step total p) = true := by
  by_cases h1 : pyStrip p = []
  · simp [parse_chars_step, h1, pure, Except.pure, isExcOk]
  · by_cases h2 : pyLower (pyStrip (pyStrip p)) = []
    · simp [parse_chars_step, h1, h2, pure, Except.pure, isExcOk]
    · have hns : ('*' : Char) ∉ pyStrip (pyStrip p) := fun hm =>
        h (mem_of_mem_pyStrip (mem_of_mem_pyStrip hm))
      have hs : (pyLower (pyStrip (pyStrip p))).contains '*' = false := by
        rw [Bool.eq_false_iff]
        intro hcon
        exact star_not_mem_pyLower hns (List.elem_iff.mp hcon)
      have hok := parse_nocomma_ok_of_no_star _ hs
      simp only [parse_chars_step, h1, h2, if_false]
      cases hpn : parse_nocomma (pyLower (pyStrip (pyStrip p))) with
      | error e =>
        rw [hpn] at hok
        simp [isExcOk] at hok
      | ok d => simp [hpn, Except.map, isExcOk]

/-- A monadic fold of step functions that never raise never raises. -/
theorem foldlM_ok {α : Type} (f : Frac → α → Except PyErr Frac) :
    ∀ (l : List α) (init : Frac),
    (∀ t p, p ∈ l → isExcOk (f t p) = true) →
    isExcOk (l.foldlM f init) = true := by
  intro l
  induction l with
  | nil =>
    intro init h
    rfl
  | cons p ps ih =>
    intro init h
    simp only [List.foldlM]
    cases hf : f init p with
    | error e =>
      have hcon := h init p (List.mem_cons_self p ps)
      rw [hf] at hcon
      simp [isExcOk] at hcon
    | ok t =>
      simp only [hf, Bind.bind, Except.bind]
      exact ih t (fun u q hq => h u q (List.mem_cons_of_mem _ hq))

/-- The string parser never raises when the normalized token is star-free —
covering the empty, comma/addition, `*`-free and simple-lookup branches. -/
theorem parse_chars_ok_of_no_star (cs : List Char)
    (h : (pyLower (pyStrip cs)).contains '*' = false) :
    isExcOk (parse_chars cs) = true := by
  rw [parse_chars_eq]
  by_cases hnil : cs = []
  · rw [if_pos hnil]
    rfl
  · rw [if_neg hnil]
    by_cases hempty : pyLower (pyStrip cs) = []
    · rw [if_pos hempty]
      rfl
    · rw [if_neg hempty]
      by_cases hc : (pyLower (pyStrip cs)).contains ',' = true
      · rw [if_pos hc]
        refine foldlM_ok _ _ _ ?_
        intro t p hp
        refine parse_chars_step_ok t p ?_
        intro hmem
        have hin : ('*' : Char) ∈ pyLower (pyStrip cs) :=
          mem_of_mem_pySplitIf hp hmem
        rw [Bool.eq_false_iff] at h
        exact h (List.elem_iff.mpr hin)
      · rw [if_neg hc]
        exact parse_nocomma_ok_of_no_star _ h

/-- The normalized token of a string does not use the `*` form. -/
def strNoStar (s : String) : Bool :=
  !(pyLower (pyStrip s.toList)).contains '*'

/-- No token of the (possibly stringified) atom uses the `*` form. -/
def atomNoStar : DurationAtom → Bool
  | .pyNone => true
  | .str s => strNoStar s
  | .int n => strNoStar (toString n)

/-- No token anywhere in the duration input uses the `*` form. -/
def inputNoStar : DurationInput → Bool
  | .pyNone => true
  | .str s => strNoStar s
  | .int n => strNoStar (toString n)
  | .list xs => xs.all atomNoStar

theorem parse_atom_ok_of_no_star (a : DurationAtom)
    (h : atomNoStar a = true) : isExcOk (parse_atom a) = true := by
  cases a with
  | pyNone => rfl
  | str s =>
    simp only [atomNoStar, strNoStar, Bool.not_eq_eq_eq_not, Bool.not_true] at h
    exact parse_chars_ok_of_no_star _ h
  | int n =>
    simp only [atomNoStar, strNoStar, Bool.not_eq_eq_eq_not, Bool.not_true] at h
    simp only [parse_atom]
    split
    · rfl
    · exact parse_chars_ok_of_no_star _ h

/-- **C4 amended**: the duration parser never raises on any input none of
whose tokens uses the `*` multiplicative form — strings (all branches:
empty, comma/addition, spelled-out count, simple lookup), `None`, numbers,
and lists of such tokens — and unrecognized input yields a zero-beat
duration; but a token containing `*` whose part before the star is not an
integer literal raises ValueError, so the parser is not total on every
input. -/
theorem parser_total_without_star :
    (∀ x : DurationInput, inputNoStar x = true →
      isExcOk (parse_duration x) = true) ∧
    (parse_duration (.str "gibberish") = .ok ⟨0, 1⟩) ∧
    (parse_duration (.str "foo, bar baz") = .ok ⟨0, 1⟩) := by
  refine ⟨?_, by decide, by decide⟩
  intro x h
  cases x with
  | pyNone => rfl
  | str s =>
    simp only [inputNoStar, strNoStar, Bool.not_eq_eq_eq_not, Bool.not_true] at h
    exact parse_chars_ok_of_no_star _ h
  | int n => exact parse_atom_ok_of_no_star (.int n) h
  | list xs =>
    cases xs with
    | nil => rfl
    | cons y ys =>
      simp only [inputNoStar, List.all_eq_true] at h
      exact parse_atom_ok_of_no_star _
        (h _ (List.getLast_mem (List.cons_ne_nil y ys)))

/-- Witness for C4 amended: star-free inputs of every shape — a comma form
with an unknown part, a token list, a number — parse without raising. -/
theorem parser_total_without_star_witness :
    isExcOk (parse_duration (.str "half, unknown thing")) = true ∧
    isExcOk (parse_duration (.list [.str "half", .str "sixteenth"])) = true ∧
    isExcOk (parse_duration (.int 7)) = true :=
  ⟨parser_total_without_star.1 (.str "half, unknown thing") (by decide),
   parser_total_without_star.1 (.list [.str "half", .str "sixteenth"]) (by decide),
   parser_total_without_star.1 (.int 7) (by decide)⟩

/-- The `"N/D"` string of measure `i` in a successful whole-score report. -/
def sigOfResult (md : MusicData) (i : Nat) : Option String :=
  match validate_all_measures md with
  | .ok (.success r) => (r.measure_results[i]?).map (fun x => x.time_signature)
  | _ => Option.none

/-- A score whose second measure carries the malformed signature "3/4/4". -/
def malformedSigScore : MusicData :=
  { time_signature := .str "6/8",
    measures :=
      [{ id := some "1", time_signature := TSField.none,
         right_hand := [], left_hand := [] },
       { id := some "2", time_signature := TSField.str "3/4/4",
         right_hand := [], left_hand := [] }] }

/-- **C3 counterexample**: measure 2 of `malformedSigScore` carries the
malformed time-signature string "3/4/4" (three '/'-separated parts), yet
validation succeeds — no error is surfaced — and the measure is silently
validated against the kept current signature 6/8. -/
theorem malformed_signature_cex :
    isExcOk (validate_all_measures malformedSigScore) = true ∧
    sigOfResult malformedSigScore 1 = some "6/8" := by
  constructor <;> decide

/-- **C3 amended**: a time-signature string that does not split into exactly
two parts is NOT surfaced as an error: at measure level validation silently
keeps the passed current signature, and at score level it behaves as the 4/4
default; only a string with exactly two '/'-separated parts where a part is
not an integer literal raises an (uncaught) ValueError. -/
theorem malformed_signature_fallback :
    (∀ (m : Measure) (cur : TimeSigDict) (s : String) (Tr Tl : Frac),
      m.time_signature = TSField.str s → parseSigStr s = .skip →
      cur.denominator ≠ 0 →
      calculate_measure_duration_events m.right_hand ⟨4, 4⟩ false = .ok Tr →
      calculate_measure_duration_events m.left_hand ⟨4, 4⟩ true = .ok Tl →
      ∃ res, validate_measure m (some cur) = .ok res ∧
        res.time_signature = ndString cur) ∧
    (∀ (m : Measure) (cur : Option TimeSigDict) (s : String),
      m.time_signature = TSField.str s → parseSigStr s = .err →
      validate_measure m cur =
        .error (.valueError "invalid literal for int")) ∧
    (∀ (md : MusicData) (s : String),
      md.time_signature = GTSField.str s → parseSigStr s = .skip →
      validate_all_measures md =
        validate_all_measures { md with time_signature := GTSField.ts 4 4 }) := by
  refine ⟨?_, ?_, ?_⟩
  · intro m cur s Tr Tl hf hps hden hTr hTl
    have hwfsig : sigFieldWf m.time_signature = true := by
      rw [hf]
      simp [sigFieldWf, hps]
    have hspec : specExplicitSig? m.time_signature = Option.none := by
      rw [hf]
      simp [specExplicitSig?, hps]
    have h := validate_measure_of_wf m cur hwfsig
      (by rw [hspec]; simpa using hden) Tr Tl hTr hTl
    rw [hspec] at h
    exact ⟨_, h, rfl⟩
  · intro m cur s hf hps
    unfold validate_measure resolve_measure_signature
    rw [hf]
    simp only [hps, Except.bind, Bind.bind]
  · intro md s hf hps
    unfold validate_all_measures resolve_global_signature
    rw [hf]
    simp only [hps]

/-- Witness for C3 amended: the three conjuncts at "3/4/4" (three parts,
kept current 6/8), "4/x" (two parts, non-integer: ValueError), and a
score-level malformed "3-4" behaving as 4/4. -/
theorem malformed_signature_fallback_witness :
    (∃ res,
      validate_measure
        { id := some "m", time_signature := TSField.str "3/4/4",
          right_hand := [], left_hand := [] } (some ⟨6, 8⟩) = .ok res ∧
      res.time_signature = ndString ⟨6, 8⟩) ∧
    validate_measure
      { id := some "m", time_signature := TSField.str "4/x",
        right_hand := [], left_hand := [] } (some ⟨4, 4⟩) =
      .error (.valueError "invalid literal for int") ∧
    validate_all_measures { time_signature := GTSField.str "3-4", measures := [] } =
      validate_all_measures { time_signature := GTSField.ts 4 4, measures := [] } :=
  ⟨malformed_signature_fallback.1
      { id := some "m", time_signature := TSField.str "3/4/4",
        right_hand := [], left_hand := [] } ⟨6, 8⟩ "3/4/4" ⟨0, 1⟩ ⟨0, 1⟩
      rfl (by decide) (by decide) (by decide) (by decide),
   malformed_signature_fallback.2.1
      { id := some "m", time_signature := TSField.str "4/x",
        right_hand := [], left_hand := [] } (some ⟨4, 4⟩) "4/x" rfl (by decide),
   malformed_signature_fallback.2.2
      { time_signature := GTSField.str "3-4", measures := [] } "3-4" rfl (by decide)⟩

/-- A score with an empty measure list but a malformed two-part global
signature string. -/
def emptyScoreBadGlobal : MusicData :=
  { time_signature := .str "4/x", measures := [] }

/-- **C10 counterexample**: the global signature is parsed before the
emptiness check, so this empty score raises ValueError instead of returning
the explicit empty-score error result. -/
theorem empty_score_cex :
    validate_all_measures emptyScoreBadGlobal =
      .error (.valueError "invalid literal for int") ∧
    isExcOk (validate_all_measures emptyScoreBadGlobal) = false := by
  constructor <;> decide

/-- The score-level signature field does not make `int()` raise. -/
def globalNoRaise : GTSField → Bool
  | .str s => parseSigStr s != .err
  | _ => true

/-- **C10 amended**: for every score with an empty measure sequence whose
global time-signature field does not itself raise (it is absent, a dict, or
a string that is not a two-part string with a non-integer part), validation
returns exactly the structured error result — a bare message, carrying no
measure_results, counts or summary — and never an empty-but-successful
report; a raising global string (see the counterexample) aborts before the
emptiness check. -/
theorem empty_score_error_result (md : MusicData)
    (hempty : md.measures = []) (hg : globalNoRaise md.time_signature = true) :
    validate_all_measures md = .ok (.error "No measures found in music data") := by
  unfold validate_all_measures resolve_global_signature
  cases hf : md.time_signature with
  | none =>
    simp only [Except.bind, Bind.bind, hempty]
    rfl
  | ts n d =>
    simp only [Except.bind, Bind.bind, hempty]
    rfl
  | str s =>
    rw [hf] at hg
    simp only [globalNoRaise, bne_iff_ne, ne_eq] at hg
    cases hps : parseSigStr s with
    | skip =>
      simp only [hps, Except.bind, Bind.bind, hempty]
      rfl
    | err => exact absurd hps hg
    | ok t =>
      simp only [hps, Except.bind, Bind.bind, hempty]
      rfl

/-- Witness for C10 amended: an empty score with no global signature yields
the explicit error result. -/
theorem empty_score_error_result_witness :
    validate_all_measures { time_signature := GTSField.none, measures := [] } =
      .ok (.error "No measures found in music data") :=
  empty_score_error_result { time_signature := GTSField.none, measures := [] }
    rfl (by decide)

/-- A three-measure score with global default 3/4: measure 0 carries no
signature, measure 1 carries "6/8", measure 2 carries none again. -/
def carryScore : MusicData :=
  { time_signature := .str "3/4",
    measures :=
      [{ id := some "1", time_signature := TSField.none, right_hand := [], left_hand := [] },
       { id := some "2", time_signature := TSField.str "6/8", right_hand := [], left_hand := [] },
       { id := some "3", time_signature := TSField.none, right_hand := [], left_hand := [] }] }

/-- Witness for C1: on `carryScore`, measure 2 (which carries no signature)
is validated against the carried-forward 6/8 of measure 1, not the 3/4
global default. -/
theorem effective_signature_carry_forward_witness :
    scoreWf carryScore = true ∧
    specEffectiveSig carryScore 2 = ⟨6, 8⟩ ∧
    (∃ report res,
      validate_all_measures carryScore = .ok (.success report) ∧
      report.measure_results[2]? = some res ∧
      res.time_signature = ndString (specEffectiveSig carryScore 2) ∧
      res.expected_duration.toRat =
        (((specEffectiveSig carryScore 2).numerator : ℚ) * 4) /
          ((specEffectiveSig carryScore 2).denominator : ℚ)) :=
  ⟨by decide, by decide,
   (effective_signature_carry_forward carryScore 2 (by decide) (by decide)).1⟩

end MeasureValidator
